import Mathlib

/-!
Shallow embedding of the raster decoder in `src/brdecode.cc`.

The byte stream is a `List Nat` of octet values (< 256).  The bounded
block reader (the lambda `get_next_block_character` in `read_page`) is a
pair of the remaining byte counter and the underlying stream.  Fallible
reads return `Except DecErr`.  The 16-bit fields of the edit decoder are
modelled as `Nat` reduced `% 65536` at each `uint16_t` assignment, and
the wrapper's `unsigned number` accumulator `% 4294967296`.
-/

/-- Errors, mirroring the exception classes of brdecode.cc. -/
inductive DecErr where
  | unexpectedEof
  | readPastBlockEnd
  | lineOverflow
  | unsupportedCompression (fmt : Nat)
  deriving DecidableEq, Repr

/-- State of the block-scoped byte reader: remaining counter, underlying stream. -/
abbrev BSrc := Nat × List Nat

/-- Constant `MAX_LINE_SIZE` from brdecode.cc. -/
def MAX_LINE_SIZE : Nat := 2000

/-- One read through the block-scoped reader (`get_next_block_character`):
fails past the declared block end when the counter is zero, otherwise
decrements the counter and takes one byte (EOF if the stream is empty). -/
def bnext : BSrc → Except DecErr (Nat × BSrc)
  | (0, _) => .error .readPastBlockEnd
  | (_ + 1, []) => .error .unexpectedEof
  | (n + 1, b :: r) => .ok (b, (n, r))

/-- Loop body of `read_overflow`: accumulate bytes while reading 255.
The accumulator is the C++ `unsigned sum`, so every addition wraps
modulo 2^32. -/
def read_overflow_go (sum : Nat) : Nat → List Nat → Except DecErr (Nat × BSrc)
  | 0, _ => .error .readPastBlockEnd
  | _ + 1, [] => .error .unexpectedEof
  | n + 1, ch :: r =>
    if ch = 255 then read_overflow_go ((sum + ch) % 4294967296) n r
    else .ok ((sum + ch) % 4294967296, (n, r))

/-- Function `read_overflow`: repeatedly read a byte, adding its value to
the 32-bit unsigned sum; stop when the byte just read is not 255.  The
terminator is included. -/
def read_overflow (s : BSrc) : Except DecErr (Nat × BSrc) :=
  read_overflow_go 0 s.1 s.2

/-- Upward `std::vector::resize` (`line.resize(end)`): pad with zero octets. -/
def resizeTo (l : List Nat) (e : Nat) : List Nat :=
  l ++ List.replicate (e - l.length) 0

/-- Effect of `std::fill_n(line.begin() + pos, count, data)`. -/
def fill_n (l : List Nat) (pos count data : Nat) : List Nat :=
  l.take pos ++ List.replicate count data ++ l.drop (pos + count)

/-- Writing the literal bytes `bs` at `pos` (effect of `std::generate_n`). -/
def write_at (l : List Nat) (pos : Nat) (bs : List Nat) : List Nat :=
  l.take pos ++ bs ++ l.drop (pos + bs.length)

/-- Read `n` bytes in order through the block reader. -/
def read_bytes : Nat → BSrc → Except DecErr (List Nat × BSrc)
  | 0, s => .ok ([], s)
  | n + 1, s =>
    match bnext s with
    | .error e => .error e
    | .ok (b, s1) =>
      match read_bytes n s1 with
      | .error e => .error e
      | .ok (bs, s2) => .ok (b :: bs, s2)

/-- The globals `line_offset` (write cursor) and `line` (previous-line buffer)
threaded through one line decode. -/
structure EditSt where
  line_offset : Nat
  line : List Nat
  deriving DecidableEq, Repr

/-- The `if (field == lim) field += read_overflow(...)` idiom shared by the
offset and count fields of both edit kinds.  The field is a `uint16_t` in
the source, so the extension is added modulo 65536. -/
def grow_field (f0 lim : Nat) (s : BSrc) : Except DecErr (Nat × BSrc) :=
  if f0 = lim then
    match read_overflow s with
    | .error e => .error e
    | .ok (v, s1) => .ok ((f0 + v) % 65536, s1)
  else .ok (f0, s)

/-- Function `read_repeat`: repeat edit.  `offset`/`count` are `uint16_t` in the
source, hence the `% 65536` at each assignment. -/
def read_repeat (cmd : Nat) (st : EditSt) (s : BSrc) : Except DecErr (EditSt × BSrc) :=
  match grow_field ((cmd >>> 5) &&& 3) 3 s with
  | .error e => .error e
  | .ok (offset, s1) =>
    match grow_field (cmd &&& 31) 31 s1 with
    | .error e => .error e
    | .ok (cnt1, s2) =>
      let count := (cnt1 + 2) % 65536
      match bnext s2 with
      | .error e => .error e
      | .ok (data, s3) =>
        let e := st.line_offset + offset + count
        if e > st.line.length then
          if e > MAX_LINE_SIZE then .error .lineOverflow
          else
            .ok ({ line_offset := st.line_offset + offset + count,
                   line := fill_n (resizeTo st.line e) (st.line_offset + offset) count data },
                 s3)
        else
          .ok ({ line_offset := st.line_offset + offset + count,
                 line := fill_n st.line (st.line_offset + offset) count data },
               s3)

/-- Function `read_substitute`: substitute edit (literal bytes).  The literal bytes
are drawn after the overflow/resize step, as `std::generate_n` does. -/
def read_substitute (cmd : Nat) (st : EditSt) (s : BSrc) : Except DecErr (EditSt × BSrc) :=
  match grow_field ((cmd >>> 3) &&& 15) 15 s with
  | .error e => .error e
  | .ok (offset, s1) =>
    match grow_field (cmd &&& 7) 7 s1 with
    | .error e => .error e
    | .ok (cnt1, s2) =>
      let count := (cnt1 + 1) % 65536
      let e := st.line_offset + offset + count
      if e > st.line.length then
        if e > MAX_LINE_SIZE then .error .lineOverflow
        else
          match read_bytes count s2 with
          | .error er => .error er
          | .ok (bs, s3) =>
            .ok ({ line_offset := st.line_offset + offset + count,
                   line := write_at (resizeTo st.line e) (st.line_offset + offset) bs },
                 s3)
      else
        match read_bytes count s2 with
        | .error er => .error er
        | .ok (bs, s3) =>
          .ok ({ line_offset := st.line_offset + offset + count,
                 line := write_at st.line (st.line_offset + offset) bs },
               s3)

/-- Function `read_edit`: the command byte's top bit selects the edit kind
(`int8_t cmd < 0` in the source is `128 ≤ cmd` on the raw octet). -/
def read_edit (st : EditSt) (s : BSrc) : Except DecErr (EditSt × BSrc) :=
  match bnext s with
  | .error e => .error e
  | .ok (cmd, s1) =>
    if 128 ≤ cmd then read_repeat cmd st s1 else read_substitute cmd st s1

/-- The `for (i < num_edits)` loop of `read_line`. -/
def apply_edits : Nat → EditSt → BSrc → Except DecErr (EditSt × BSrc)
  | 0, st, s => .ok (st, s)
  | k + 1, st, s =>
    match read_edit st s with
    | .error e => .error e
    | .ok (st1, s1) => apply_edits k st1 s1

/-- Function `read_line`: one scan line.  A `num_edits` byte of 255 clears the
previous-line buffer; otherwise the write cursor is reset and `num_edits`
edits are applied.  The resulting line is appended to the page. -/
def read_line (line : List Nat) (page : List (List Nat)) (s : BSrc) :
    Except DecErr (List Nat × List (List Nat) × BSrc) :=
  match bnext s with
  | .error e => .error e
  | .ok (ne, s1) =>
    if ne = 255 then .ok ([], page ++ [[]], s1)
    else
      match apply_edits ne { line_offset := 0, line := line } s1 with
      | .error e => .error e
      | .ok (st, s2) => .ok (st.line, page ++ [st.line], s2)

/-- The `for (i < count)` loop of `read_block`. -/
def read_lines : Nat → List Nat → List (List Nat) → BSrc →
    Except DecErr (List Nat × List (List Nat) × BSrc)
  | 0, line, page, s => .ok (line, page, s)
  | k + 1, line, page, s =>
    match read_line line page s with
    | .error e => .error e
    | .ok (line1, page1, s1) => read_lines k line1 page1 s1

/-- Function `read_block`: 16-bit big-endian line count, then that many lines. -/
def read_block (line : List Nat) (page : List (List Nat)) (s : BSrc) :
    Except DecErr (List Nat × List (List Nat) × BSrc) :=
  match bnext s with
  | .error e => .error e
  | .ok (hi, s1) =>
    match bnext s1 with
    | .error e => .error e
    | .ok (lo, s2) => read_lines (hi * 256 + lo) line page s2

instance {ε α : Type} [DecidableEq ε] [DecidableEq α] : DecidableEq (Except ε α) :=
  fun a b =>
    match a, b with
    | .ok x, .ok y =>
      if h : x = y then .isTrue (by rw [h]) else .isFalse (by simp [h])
    | .error x, .error y =>
      if h : x = y then .isTrue (by rw [h]) else .isFalse (by simp [h])
    | .ok _, .error _ => .isFalse (by simp)
    | .error _, .ok _ => .isFalse (by simp)

example : read_overflow (3, [7, 9]) = .ok (7, (2, [9])) := by decide
example : read_overflow (4, [255, 255, 3, 9]) = .ok (513, (1, [9])) := by decide
example : read_block [] [] (5, [0, 1, 1, 0, 165]) =
    .ok ([165], [[165]], (0, [])) := by decide
example : read_block [] [] (5, [0, 1, 1, 130, 255]) =
    .ok ([255, 255, 255, 255], [[255, 255, 255, 255]], (0, [])) := by decide

/-- The block reader only moves forward: from `s` to `s1` the counter does
not grow and the underlying stream loses exactly the counted bytes. -/
def Consumed (s s1 : BSrc) : Prop :=
  s1.1 ≤ s.1 ∧ s1.2 = s.2.drop (s.1 - s1.1)

theorem consumed_refl (s : BSrc) : Consumed s s := by
  exact ⟨le_refl _, by simp⟩

theorem consumed_trans {s s1 s2 : BSrc} (h1 : Consumed s s1) (h2 : Consumed s1 s2) :
    Consumed s s2 := by
  obtain ⟨a1, b1⟩ := h1
  obtain ⟨a2, b2⟩ := h2
  refine ⟨le_trans a2 a1, ?_⟩
  rw [b2, b1, List.drop_drop]
  congr 1
  omega

theorem consumed_length {s s1 : BSrc} (h : Consumed s s1) : s1.2.length ≤ s.2.length := by
  rw [h.2]
  simp

theorem bnext_consumed {s : BSrc} {b : Nat} {s1 : BSrc} (h : bnext s = .ok (b, s1)) :
    Consumed s s1 := by
  match s with
  | (0, l) => simp [bnext] at h
  | (n + 1, []) => simp [bnext] at h
  | (n + 1, c :: r) =>
    simp [bnext] at h
    refine ⟨?_, ?_⟩
    · rw [← h.2]
      omega
    · rw [← h.2]
      simp

theorem read_overflow_go_consumed :
    ∀ (r : List Nat) (n sum v : Nat) (s1 : BSrc),
      read_overflow_go sum n r = .ok (v, s1) → Consumed (n, r) s1 := by
  intro r
  induction r with
  | nil =>
    intro n sum v s1 h
    match n with
    | 0 => simp [read_overflow_go] at h
    | n + 1 => simp [read_overflow_go] at h
  | cons c r ih =>
    intro n sum v s1 h
    match n with
    | 0 => simp [read_overflow_go] at h
    | n + 1 =>
      simp only [read_overflow_go] at h
      split at h
      · exact @consumed_trans (n + 1, c :: r) (n, r) s1 ⟨by omega, by simp⟩ (ih n _ v s1 h)
      · simp at h
        refine ⟨?_, ?_⟩
        · rw [← h.2]
          omega
        · rw [← h.2]
          simp

theorem read_overflow_consumed {s : BSrc} {v : Nat} {s1 : BSrc}
    (h : read_overflow s = .ok (v, s1)) : Consumed s s1 :=
  read_overflow_go_consumed s.2 s.1 0 v s1 h

theorem read_bytes_consumed :
    ∀ (n : Nat) (s : BSrc) (bs : List Nat) (s1 : BSrc),
      read_bytes n s = .ok (bs, s1) → Consumed s s1 := by
  intro n
  induction n with
  | zero =>
    intro s bs s1 h
    simp [read_bytes] at h
    rw [← h.2]
    exact consumed_refl s
  | succ n ih =>
    intro s bs s1 h
    cases hb : bnext s with
    | error e => simp [read_bytes, hb] at h
    | ok p =>
      obtain ⟨b, s2⟩ := p
      cases hr : read_bytes n s2 with
      | error e => simp [read_bytes, hb, hr] at h
      | ok q =>
        obtain ⟨bs2, s3⟩ := q
        simp [read_bytes, hb, hr] at h
        refine consumed_trans (bnext_consumed hb) ?_
        rw [← h.2]
        exact ih s2 bs2 s3 hr

theorem read_bytes_length :
    ∀ (n : Nat) (s : BSrc) (bs : List Nat) (s1 : BSrc),
      read_bytes n s = .ok (bs, s1) → bs.length = n := by
  intro n
  induction n with
  | zero =>
    intro s bs s1 h
    simp [read_bytes] at h
    rw [h.1]
    rfl
  | succ n ih =>
    intro s bs s1 h
    cases hb : bnext s with
    | error e => simp [read_bytes, hb] at h
    | ok p =>
      obtain ⟨b, s2⟩ := p
      cases hr : read_bytes n s2 with
      | error e => simp [read_bytes, hb, hr] at h
      | ok q =>
        obtain ⟨bs2, s3⟩ := q
        simp [read_bytes, hb, hr] at h
        rw [← h.1]
        simp [ih s2 bs2 s3 hr]

theorem grow_field_consumed {f0 lim : Nat} {s : BSrc} {v : Nat} {s1 : BSrc}
    (h : grow_field f0 lim s = .ok (v, s1)) : Consumed s s1 := by
  unfold grow_field at h
  split at h
  · cases hov : read_overflow s with
    | error e => rw [hov] at h; simp at h
    | ok p =>
      obtain ⟨w, s2⟩ := p
      rw [hov] at h
      simp at h
      rw [← h.2]
      exact read_overflow_consumed hov
  · simp at h
    rw [← h.2]
    exact consumed_refl s

theorem read_repeat_consumed {cmd : Nat} {st : EditSt} {s : BSrc} {st1 : EditSt} {s1 : BSrc}
    (h : read_repeat cmd st s = .ok (st1, s1)) : Consumed s s1 := by
  cases hoff : grow_field ((cmd >>> 5) &&& 3) 3 s with
  | error e => simp [read_repeat, hoff] at h
  | ok p =>
    obtain ⟨offset, sa⟩ := p
    cases hcnt : grow_field (cmd &&& 31) 31 sa with
    | error e => simp [read_repeat, hoff, hcnt] at h
    | ok q =>
      obtain ⟨cnt1, sb⟩ := q
      cases hdata : bnext sb with
      | error e => simp [read_repeat, hoff, hcnt, hdata] at h
      | ok r =>
        obtain ⟨data, sc⟩ := r
        have hc : Consumed s sc :=
          consumed_trans (grow_field_consumed hoff)
            (consumed_trans (grow_field_consumed hcnt) (bnext_consumed hdata))
        simp only [read_repeat, hoff, hcnt, hdata] at h
        split at h
        · split at h
          · simp at h
          · simp at h
            rw [← h.2]
            exact hc
        · simp at h
          rw [← h.2]
          exact hc

theorem read_substitute_consumed {cmd : Nat} {st : EditSt} {s : BSrc} {st1 : EditSt} {s1 : BSrc}
    (h : read_substitute cmd st s = .ok (st1, s1)) : Consumed s s1 := by
  cases hoff : grow_field ((cmd >>> 3) &&& 15) 15 s with
  | error e => simp [read_substitute, hoff] at h
  | ok p =>
    obtain ⟨offset, sa⟩ := p
    cases hcnt : grow_field (cmd &&& 7) 7 sa with
    | error e => simp [read_substitute, hoff, hcnt] at h
    | ok q =>
      obtain ⟨cnt1, sb⟩ := q
      cases hbs : read_bytes ((cnt1 + 1) % 65536) sb with
      | error e =>
        simp only [read_substitute, hoff, hcnt, hbs] at h
        split at h
        · split at h
          · simp at h
          · simp at h
        · simp at h
      | ok r =>
        obtain ⟨bs, sc⟩ := r
        have hc : Consumed s sc :=
          consumed_trans (grow_field_consumed hoff)
            (consumed_trans (grow_field_consumed hcnt)
              (read_bytes_consumed _ sb bs sc hbs))
        simp only [read_substitute, hoff, hcnt, hbs] at h
        split at h
        · split at h
          · simp at h
          · simp at h
            rw [← h.2]
            exact hc
        · simp at h
          rw [← h.2]
          exact hc

theorem read_edit_consumed {st : EditSt} {s : BSrc} {st1 : EditSt} {s1 : BSrc}
    (h : read_edit st s = .ok (st1, s1)) : Consumed s s1 := by
  cases hb : bnext s with
  | error e => simp [read_edit, hb] at h
  | ok p =>
    obtain ⟨cmd, s2⟩ := p
    by_cases hcmd : 128 ≤ cmd
    · simp only [read_edit, hb, if_pos hcmd] at h
      exact consumed_trans (bnext_consumed hb) (read_repeat_consumed h)
    · simp only [read_edit, hb, if_neg hcmd] at h
      exact consumed_trans (bnext_consumed hb) (read_substitute_consumed h)

theorem apply_edits_consumed :
    ∀ (k : Nat) (st : EditSt) (s : BSrc) (st1 : EditSt) (s1 : BSrc),
      apply_edits k st s = .ok (st1, s1) → Consumed s s1 := by
  intro k
  induction k with
  | zero =>
    intro st s st1 s1 h
    simp [apply_edits] at h
    rw [← h.2]
    exact consumed_refl s
  | succ k ih =>
    intro st s st1 s1 h
    cases he : read_edit st s with
    | error e => simp [apply_edits, he] at h
    | ok p =>
      obtain ⟨st2, s2⟩ := p
      simp only [apply_edits, he] at h
      exact consumed_trans (read_edit_consumed he) (ih st2 s2 st1 s1 h)

theorem read_line_consumed {line : List Nat} {page : List (List Nat)} {s : BSrc}
    {line1 : List Nat} {page1 : List (List Nat)} {s1 : BSrc}
    (h : read_line line page s = .ok (line1, page1, s1)) : Consumed s s1 := by
  cases hb : bnext s with
  | error e => simp [read_line, hb] at h
  | ok p =>
    obtain ⟨ne, s2⟩ := p
    by_cases hne : ne = 255
    · simp only [read_line, hb, if_pos hne] at h
      simp at h
      rw [← h.2.2]
      exact bnext_consumed hb
    · cases ha : apply_edits ne { line_offset := 0, line := line } s2 with
      | error e => simp [read_line, hb, if_neg hne, ha] at h
      | ok q =>
        obtain ⟨st2, s3⟩ := q
        simp only [read_line, hb, if_neg hne, ha] at h
        simp at h
        rw [← h.2.2]
        exact consumed_trans (bnext_consumed hb)
          (apply_edits_consumed ne _ s2 st2 s3 ha)

theorem read_lines_consumed :
    ∀ (k : Nat) (line : List Nat) (page : List (List Nat)) (s : BSrc)
      (line1 : List Nat) (page1 : List (List Nat)) (s1 : BSrc),
      read_lines k line page s = .ok (line1, page1, s1) → Consumed s s1 := by
  intro k
  induction k with
  | zero =>
    intro line page s line1 page1 s1 h
    simp [read_lines] at h
    rw [← h.2.2]
    exact consumed_refl s
  | succ k ih =>
    intro line page s line1 page1 s1 h
    cases hl : read_line line page s with
    | error e => simp [read_lines, hl] at h
    | ok p =>
      obtain ⟨line2, page2, s2⟩ := p
      simp only [read_lines, hl] at h
      exact consumed_trans (read_line_consumed hl) (ih line2 page2 s2 line1 page1 s1 h)

theorem read_block_consumed {line : List Nat} {page : List (List Nat)} {s : BSrc}
    {line1 : List Nat} {page1 : List (List Nat)} {s1 : BSrc}
    (h : read_block line page s = .ok (line1, page1, s1)) : Consumed s s1 := by
  cases hhi : bnext s with
  | error e => simp [read_block, hhi] at h
  | ok p =>
    obtain ⟨hi, sa⟩ := p
    cases hlo : bnext sa with
    | error e => simp [read_block, hhi, hlo] at h
    | ok q =>
      obtain ⟨lo, sb⟩ := q
      simp only [read_block, hhi, hlo] at h
      exact consumed_trans (bnext_consumed hhi)
        (consumed_trans (bnext_consumed hlo)
          (read_lines_consumed (hi * 256 + lo) line page sb line1 page1 s1 h))

/-- Loop state of `read_page` plus the globals `line` and `page`:
`in_raster`, the parameter accumulator `number` (an `unsigned`, hence
`% 4294967296`), and the selected `format`.  `format` is an `int` set
from `number` and compared against 1030; since the round trip through
`int` is injective on `unsigned` values, it is kept as the raw value. -/
structure WState where
  in_raster : Bool
  number : Nat
  format : Nat
  line : List Nat
  page : List (List Nat)
  deriving DecidableEq, Repr

/-- The action branch for one byte in raster mode (brdecode.cc:179-205):
digits accumulate `number`; `m`/`M` select the format; `w`/`W` run the
block decoder over the next `number` bytes (only format 1030 is
supported), then drain any bytes the decoder left unread (the source
prints a warning first; printing is not modelled). -/
def raster_action (ch : Nat) (st : WState) (input : List Nat) :
    Except DecErr (WState × List Nat) :=
  if 48 ≤ ch ∧ ch ≤ 57 then
    .ok ({ st with number := (st.number * 10 + (ch - 48)) % 4294967296 }, input)
  else if ch = 109 ∨ ch = 77 then
    .ok ({ st with format := st.number }, input)
  else if ch = 119 ∨ ch = 87 then
    if st.format = 1030 then
      match read_block st.line st.page (st.number, input) with
      | .error e => .error e
      | .ok (line1, page1, (n1, rest)) =>
        if rest.length < n1 then .error .unexpectedEof
        else .ok ({ st with line := line1, page := page1, number := 0 }, rest.drop n1)
    else .error (.unsupportedCompression st.format)
  else .ok (st, input)

/-- The parameter/terminating classification applied after the action
(brdecode.cc:206-212): bytes in the backquote..tilde range reset
`number`, bytes in the at-sign..caret range leave raster mode. -/
def range_adjust (ch : Nat) (st : WState) : WState :=
  if 96 ≤ ch ∧ ch ≤ 126 then { st with number := 0 }
  else if 64 ≤ ch ∧ ch ≤ 94 then { st with in_raster := false }
  else st

/-- Full handling of one byte while `in_raster` holds. -/
def raster_byte (ch : Nat) (st : WState) (input : List Nat) :
    Except DecErr (WState × List Nat) :=
  match raster_action ch st input with
  | .error e => .error e
  | .ok (st1, input1) => .ok (range_adjust ch st1, input1)

theorem raster_action_length {ch : Nat} {st : WState} {input : List Nat}
    {st1 : WState} {input1 : List Nat}
    (h : raster_action ch st input = .ok (st1, input1)) :
    input1.length ≤ input.length := by
  unfold raster_action at h
  split at h
  · simp at h
    rw [← h.2]
  · split at h
    · simp at h
      rw [← h.2]
    · split at h
      · split at h
        · cases hb : read_block st.line st.page (st.number, input) with
          | error e => simp [hb] at h
          | ok p =>
            obtain ⟨line1, page1, n1, rest⟩ := p
            simp only [hb] at h
            split at h
            · simp at h
            · simp only [Except.ok.injEq, Prod.mk.injEq] at h
              rw [← h.2]
              calc (rest.drop n1).length ≤ rest.length := by simp
                _ ≤ input.length := consumed_length (read_block_consumed hb)
        · simp at h
      · simp at h
        rw [← h.2]

theorem raster_byte_length {ch : Nat} {st : WState} {input : List Nat}
    {st1 : WState} {input1 : List Nat}
    (h : raster_byte ch st input = .ok (st1, input1)) :
    input1.length ≤ input.length := by
  cases ha : raster_action ch st input with
  | error e => simp [raster_byte, ha] at h
  | ok p =>
    obtain ⟨st2, input2⟩ := p
    simp only [raster_byte, ha] at h
    simp at h
    rw [← h.2]
    exact raster_action_length ha

/-- The scanning loop of `read_page` (brdecode.cc:167-214): process bytes
until a form feed or end of stream.  ESC reads two further bytes and
enters raster mode on `*` `b`; any other two-byte tail is consumed and
ignored.  Bytes outside raster mode are ignored. -/
def read_page_loop (st : WState) : List Nat → Except DecErr (List (List Nat) × List Nat)
  | [] => .ok (st.page, [])
  | ch :: rest =>
    if ch = 12 then .ok (st.page, rest)
    else if ch = 27 then
      match rest with
      | [] => .error .unexpectedEof
      | [_] => .error .unexpectedEof
      | c1 :: c2 :: rest2 =>
        if c1 = 42 ∧ c2 = 98 then
          read_page_loop { st with in_raster := true, number := 0 } rest2
        else read_page_loop st rest2
    else if st.in_raster then
      match hrb : raster_byte ch st rest with
      | .error e => .error e
      | .ok (st1, rest1) => read_page_loop st1 rest1
    else read_page_loop st rest
termination_by l => l.length
decreasing_by
  · simp
    omega
  · simp
    omega
  · have hlen := raster_byte_length hrb
    simp
    omega
  · simp

/-- Function `read_page`: clear `page` and `line`, reset the wrapper state
(`format` starts at 0), and scan to the next form feed or the end of
the stream.  The pair is the accumulated page and the unread input; the
boolean the source returns is the page being nonempty. -/
def read_page (input : List Nat) : Except DecErr (List (List Nat) × List Nat) :=
  read_page_loop { in_raster := false, number := 0, format := 0, line := [], page := [] } input

theorem read_page_loop_length :
    ∀ (st : WState) (l : List Nat) (pg : List (List Nat)) (rest : List Nat),
      read_page_loop st l = .ok (pg, rest) → rest.length ≤ l.length := by
  intro st l
  induction st, l using read_page_loop.induct with
  | case1 st =>
    intro pg rest h
    rw [read_page_loop.eq_def] at h
    simp at h
    obtain ⟨h1, h2⟩ := h
    subst h2
    simp
  | case2 st rest =>
    intro pg rest1 h
    rw [read_page_loop.eq_def] at h
    simp at h
    obtain ⟨h1, h2⟩ := h
    subst h2
    simp
  | case3 st h27 =>
    intro pg rest1 h
    rw [read_page_loop.eq_def] at h
    simp at h
  | case4 st c1 h27 =>
    intro pg rest1 h
    rw [read_page_loop.eq_def] at h
    simp at h
  | case5 st c1 c2 rest2 hstar h27 ih =>
    intro pg rest1 h
    rw [read_page_loop.eq_def] at h
    simp [hstar] at h
    have := ih pg rest1 h
    simp
    omega
  | case6 st c1 c2 rest2 hnstar h27 ih =>
    intro pg rest1 h
    rw [read_page_loop.eq_def] at h
    simp [hnstar] at h
    have := ih pg rest1 h
    simp
    omega
  | case7 st ch rest h12 h27 hir e hrb =>
    intro pg rest1 h
    rw [read_page_loop.eq_def] at h
    simp [h12, h27, hir] at h
    split at h
    · simp at h
    · rename_i st1x rest1x heq
      rw [hrb] at heq
      exact absurd heq (by simp)
  | case8 st ch rest h12 h27 hir st1 rest2 hrb ih =>
    intro pg rest1 h
    rw [read_page_loop.eq_def] at h
    simp [h12, h27, hir] at h
    split at h
    · rename_i e2 heq
      rw [hrb] at heq
      exact absurd heq (by simp)
    · rename_i st1x rest1x heq
      rw [hrb] at heq
      simp at heq
      obtain ⟨he1, he2⟩ := heq
      subst he1
      subst he2
      have h1 := ih pg rest1 h
      have h2 := raster_byte_length hrb
      simp
      omega
  | case9 st ch rest h12 h27 hnir ih =>
    intro pg rest1 h
    rw [read_page_loop.eq_def] at h
    simp [h12, h27, hnir] at h
    have := ih pg rest1 h
    simp
    omega

theorem read_page_loop_cons_length (st : WState) (c : Nat) (l : List Nat)
    (pg : List (List Nat)) (rest : List Nat)
    (h : read_page_loop st (c :: l) = .ok (pg, rest)) :
    rest.length < (c :: l).length := by
  rw [read_page_loop.eq_def] at h
  by_cases h12 : c = 12
  · simp [h12] at h
    obtain ⟨h1, h2⟩ := h
    subst h2
    simp
  · by_cases h27 : c = 27
    · cases l with
      | nil => simp [h12, h27] at h
      | cons c1 l1 =>
        cases l1 with
        | nil => simp [h12, h27] at h
        | cons c2 l2 =>
          simp only [if_neg h12, if_pos h27] at h
          split at h
          · have := read_page_loop_length _ l2 pg rest h
            simp
            omega
          · have := read_page_loop_length _ l2 pg rest h
            simp
            omega
    · by_cases hir : st.in_raster = true
      · simp only [if_neg h12, if_neg h27, if_pos hir] at h
        split at h
        · simp at h
        · rename_i st1 rest1 heq
          have h1 := read_page_loop_length st1 rest1 pg rest h
          have h2 := raster_byte_length heq
          simp
          omega
      · simp only [if_neg h12, if_neg h27, if_neg hir] at h
        have := read_page_loop_length st l pg rest h
        simp
        omega

theorem read_page_decreases {input : List Nat} {pg : List (List Nat)} {rest : List Nat}
    (h : read_page input = .ok (pg, rest)) (hpg : pg ≠ []) :
    rest.length < input.length := by
  cases input with
  | nil =>
    simp only [read_page] at h
    rw [read_page_loop.eq_def] at h
    simp at h
    exact absurd h.1 hpg
  | cons c l => exact read_page_loop_cons_length _ c l pg rest h

/-- The caller loop in `main` (brdecode.cc:264-278): decode pages while
`read_page()` reports a nonempty page.  Returns the pages handed to the
emitter and the input left unread when the loop stops. -/
def drive (input : List Nat) : Except DecErr (List (List (List Nat)) × List Nat) :=
  match hp : read_page input with
  | .error e => .error e
  | .ok (pg, rest) =>
    if hpg : pg = [] then .ok ([], rest)
    else
      match drive rest with
      | .error e => .error e
      | .ok (pgs, rest2) => .ok (pg :: pgs, rest2)
termination_by input.length
decreasing_by
  exact read_page_decreases hp hpg

theorem read_overflow_go_replicate :
    ∀ (k sum v n : Nat) (rest : List Nat), v < 255 →
      read_overflow_go sum (n + k + 1) (List.replicate k 255 ++ v :: rest) =
        .ok ((sum + 255 * k + v) % 4294967296, (n, rest)) := by
  intro k
  induction k with
  | zero =>
    intro sum v n rest hv
    simp [read_overflow_go, Nat.ne_of_lt hv]
  | succ k ih =>
    intro sum v n rest hv
    have h1 : n + (k + 1) + 1 = (n + k + 1) + 1 := by omega
    rw [h1]
    simp only [List.replicate_succ, List.cons_append, read_overflow_go, List.append_eq,
      eq_self_iff_true, if_true]
    rw [ih ((sum + 255) % 4294967296) v n rest hv]
    have heq : ((sum + 255) % 4294967296 + 255 * k + v) % 4294967296 =
        (sum + 255 * (k + 1) + v) % 4294967296 := by omega
    rw [heq]

theorem read_overflow_replicate (k v n : Nat) (rest : List Nat) (hv : v < 255) :
    read_overflow (n + k + 1, List.replicate k 255 ++ v :: rest) =
      .ok ((255 * k + v) % 4294967296, (n, rest)) := by
  have h := read_overflow_go_replicate k 0 v n rest hv
  simp only [read_overflow]
  rw [h]
  simp

/-- C4: `read_overflow` repeatedly reads one byte and adds its value to a
running 32-bit unsigned sum, stops as soon as the byte just read is not
0xFF, and returns the total with the terminating byte included: a sole
byte v < 255 yields v; the bytes 255, 255, v yield 510 + v; in general k
leading 0xFF bytes followed by terminator v yield (255 * k + v) modulo
2^32, the accumulator being a C++ `unsigned`. -/
theorem C4_read_overflow (v n k : Nat) (rest : List Nat) (hv : v < 255) :
    read_overflow (n + 1, v :: rest) = .ok (v, (n, rest)) ∧
    read_overflow (n + 3, 255 :: 255 :: v :: rest) = .ok (510 + v, (n, rest)) ∧
    read_overflow (n + k + 1, List.replicate k 255 ++ v :: rest) =
      .ok ((255 * k + v) % 4294967296, (n, rest)) := by
  refine ⟨?_, ?_, read_overflow_replicate k v n rest hv⟩
  · have h := read_overflow_replicate 0 v n rest hv
    rw [show (255 * 0 + v) % 4294967296 = v from by omega] at h
    simp at h
    exact h
  · have h := read_overflow_replicate 2 v n rest hv
    have h3 : n + 2 + 1 = n + 3 := by omega
    rw [h3, show (255 * 2 + v) % 4294967296 = 510 + v from by omega] at h
    norm_num [List.replicate] at h
    exact h

theorem C4_read_overflow_witness :
    7 < 255 ∧ read_overflow (4 + 1, 7 :: [9]) = .ok (7, (4, [9])) :=
  ⟨by decide, (C4_read_overflow 7 4 0 [9] (by decide)).1⟩

set_option maxRecDepth 40000 in
/-- C7: decoding the block payload 00 01 01 9F FF 03 00 from an empty
previous-line buffer yields exactly one scan line of 291 zero octets:
line count 1, num_edits 1, cmd 0x9F is a repeat with offset 0 and
count 31 + read_overflow(FF 03) + 2 = 31 + 258 + 2 = 291, data 0x00. -/
theorem C7_overflow_count :
    read_block [] [] (7, [0, 1, 1, 159, 255, 3, 0]) =
      .ok (List.replicate 291 0, [List.replicate 291 0], (0, [])) := by
  decide

set_option maxRecDepth 100000 in
/-- C10: the offset and count fields of an edit are 16-bit, so the
read_overflow extension is added modulo 2^16.  With cmd 0x9F and an
extension of 258 0xFF bytes and terminator 0, the sum 31 + 65790 wraps
to 285, count becomes 287, and the repeat edit is applied with the
wrapped count (a 287-octet line) instead of failing with line-overflow
as the unwrapped count 65823 would. -/
theorem C10_uint16_wrap :
    read_repeat 159 { line_offset := 0, line := [] }
        (260, List.replicate 258 255 ++ [0, 7]) =
      .ok ({ line_offset := 287, line := List.replicate 287 7 }, (0, [])) ∧
    65536 ≤ 31 + (255 * 258 + 0) ∧ (31 + (255 * 258 + 0)) % 65536 + 2 = 287 := by
  refine ⟨by decide, by norm_num, by norm_num⟩

theorem raster_action_w_drop {ch : Nat} {st : WState} {input : List Nat}
    {st1 : WState} {input1 : List Nat} (hch : ch = 119 ∨ ch = 87)
    (h : raster_action ch st input = .ok (st1, input1)) :
    input1 = input.drop st.number ∧ st1.number = 0 := by
  have hcond : ¬(48 ≤ ch ∧ ch ≤ 57) ∧ ¬(ch = 109 ∨ ch = 77) ∧ (ch = 119 ∨ ch = 87) := by
    rcases hch with h1 | h1 <;> subst h1 <;> norm_num
  simp only [raster_action, if_neg hcond.1, if_neg hcond.2.1, if_pos hcond.2.2] at h
  split at h
  · cases hrb : read_block st.line st.page (st.number, input) with
    | error e => simp [hrb] at h
    | ok p =>
      obtain ⟨line1, page1, n1, rest⟩ := p
      simp only [hrb] at h
      split at h
      · simp at h
      · simp only [Except.ok.injEq, Prod.mk.injEq] at h
        obtain ⟨h1, h2⟩ := h
        have hle := (read_block_consumed hrb).1
        have hdrop := (read_block_consumed hrb).2
        dsimp only at hle hdrop
        constructor
        · rw [← h2, hdrop, List.drop_drop]
          congr 1
          omega
        · rw [← h1]
  · simp at h

/-- C9: the block-scoped byte reader fails with a past-end-of-block error
exactly when a read is requested with the remaining counter at zero; and
when the raster decoder returns successfully, the leftover bytes within
the block are drained from the underlying source (the source prints a
warning first; printing is not modelled), so a successful graphics-data
action consumes exactly the declared `number` of bytes from the input. -/
theorem C9_block_framing (s : BSrc) (l : List Nat) (st st1 : WState)
    (input input1 : List Nat) (ch : Nat)
    (hch : ch = 119 ∨ ch = 87)
    (hb : raster_byte ch st input = .ok (st1, input1)) :
    (bnext s = .error .readPastBlockEnd ↔ s.1 = 0) ∧
    bnext (0, l) = .error .readPastBlockEnd ∧
    input1 = input.drop st.number ∧ st1.number = 0 := by
  refine ⟨?_, by simp [bnext], ?_, ?_⟩
  · obtain ⟨n, l2⟩ := s
    match n with
    | 0 => simp [bnext]
    | n + 1 =>
      cases l2 with
      | nil => simp [bnext]
      | cons b r => simp [bnext]
  · cases ha : raster_action ch st input with
    | error e => simp [raster_byte, ha] at hb
    | ok p =>
      obtain ⟨st2, input2⟩ := p
      simp only [raster_byte, ha, Except.ok.injEq, Prod.mk.injEq] at hb
      have hw := raster_action_w_drop hch ha
      rw [← hb.2]
      exact hw.1
  · cases ha : raster_action ch st input with
    | error e => simp [raster_byte, ha] at hb
    | ok p =>
      obtain ⟨st2, input2⟩ := p
      simp only [raster_byte, ha, Except.ok.injEq, Prod.mk.injEq] at hb
      have hw := raster_action_w_drop hch ha
      rw [← hb.1]
      rcases hch with h1 | h1 <;> subst h1 <;> simp [range_adjust, hw.2]

theorem C9_block_framing_witness :
    (bnext ((0, []) : BSrc) = .error .readPastBlockEnd ↔ (0 : Nat) = 0) ∧
    bnext ((0 : Nat), ([] : List Nat)) = .error .readPastBlockEnd ∧
    ([] : List Nat) = [0, 0].drop 2 ∧ (0 : Nat) = 0 := by
  have h := C9_block_framing (0, []) []
    { in_raster := true, number := 2, format := 1030, line := [], page := [] }
    { in_raster := true, number := 0, format := 1030, line := [], page := [] }
    [0, 0] [] 119 (Or.inl rfl) (by decide)
  exact ⟨h.1, h.2.1, h.2.2.1, rfl⟩

/-- C8: a `num_edits` byte of 255 clears the previous-line buffer to
empty, consumes no further bytes for that line, and appends the now-empty
copy to the page (so subsequent lines start from the empty buffer); any
other value resets the write cursor to zero, applies exactly `num_edits`
edits, and appends a copy of the buffer; `num_edits` = 0 appends an
unchanged copy of the previous line. -/
theorem C8_read_line (line : List Nat) (page : List (List Nat)) (n : Nat)
    (rest : List Nat) (e : Nat) (st : EditSt) (s2 : BSrc) (he : e ≠ 255)
    (happ : apply_edits e { line_offset := 0, line := line } (n, rest) = .ok (st, s2)) :
    read_line line page (n + 1, 255 :: rest) = .ok ([], page ++ [[]], (n, rest)) ∧
    read_line line page (n + 1, e :: rest) = .ok (st.line, page ++ [st.line], s2) ∧
    read_line line page (n + 1, 0 :: rest) = .ok (line, page ++ [line], (n, rest)) := by
  refine ⟨?_, ?_, ?_⟩
  · simp [read_line, bnext]
  · simp [read_line, bnext, he, happ]
  · simp [read_line, bnext, apply_edits]

theorem C8_read_line_witness :
    read_line [5] [] (3 + 1, 255 :: [9]) = .ok ([], [] ++ [[]], (3, [9])) ∧
    read_line [5] [] (3 + 1, 0 :: [9]) =
      .ok (({ line_offset := 0, line := [5] } : EditSt).line,
        [] ++ [({ line_offset := 0, line := [5] } : EditSt).line], (3, [9])) ∧
    read_line [5] [] (3 + 1, 0 :: [9]) = .ok ([5], [] ++ [[5]], (3, [9])) := by
  have h := C8_read_line [5] [] 3 [9] 0 { line_offset := 0, line := [5] } (3, [9])
    (by decide) (by decide)
  exact ⟨h.1, h.2.1, h.2.2⟩

/-- C1 counterexample: the claim asserts that after the action keyed by
'M' (0x4D) the parameter-character reset fires, leaving the parser in
raster mode with number = 0.  In fact 'M' lies in the terminating range
@..^ (0x40..0x5E), not in the parameter range 0x60..0x7E, so after
`format = number` the terminating branch runs: in_raster becomes false
and number is not reset.  Starting from in_raster = true, number = 5,
the handler does not end in the claimed state (in_raster, number) =
(true, 0). -/
theorem C1_counterexample :
    (raster_byte 77 { in_raster := true, number := 5, format := 0, line := [], page := [] }
        []).map (fun p => (p.1.in_raster, p.1.number)) ≠ .ok (true, 0) := by
  decide

/-- C1 amended: for the lowercase letters 'm' (0x6D) and 'w' (0x77) the
keyed action executes first and the parameter-character reset then sets
number to 0 while in_raster is untouched, because they lie in 0x60..0x7E;
the uppercase letters 'M' (0x4D) and 'W' (0x57) lie in the terminating
range 0x40..0x5E instead, so their action is followed by the terminating
branch, which sets in_raster to false and leaves number unchanged.  The
action for 'm'/'M' is `format = number`, with the input untouched. -/
theorem C1_amended (st : WState) (input : List Nat) (st1 : WState) (input1 : List Nat) :
    (raster_action 109 st input = .ok (st1, input1) →
      raster_byte 109 st input = .ok ({ st1 with number := 0 }, input1)) ∧
    (raster_action 119 st input = .ok (st1, input1) →
      raster_byte 119 st input = .ok ({ st1 with number := 0 }, input1)) ∧
    (raster_action 77 st input = .ok (st1, input1) →
      raster_byte 77 st input = .ok ({ st1 with in_raster := false }, input1)) ∧
    (raster_action 87 st input = .ok (st1, input1) →
      raster_byte 87 st input = .ok ({ st1 with in_raster := false }, input1)) ∧
    raster_action 109 st input = .ok ({ st with format := st.number }, input) ∧
    raster_action 77 st input = .ok ({ st with format := st.number }, input) := by
  refine ⟨?_, ?_, ?_, ?_, ?_, ?_⟩
  · intro h
    simp [raster_byte, h, range_adjust]
  · intro h
    simp [raster_byte, h, range_adjust]
  · intro h
    simp [raster_byte, h, range_adjust]
  · intro h
    simp [raster_byte, h, range_adjust]
  · simp [raster_action]
  · simp [raster_action]

theorem C1_amended_witness :
    raster_byte 109 { in_raster := true, number := 5, format := 0, line := [], page := [] } [] =
      .ok ({ in_raster := true, number := 0, format := 5, line := [], page := [] }, []) :=
  (C1_amended { in_raster := true, number := 5, format := 0, line := [], page := [] } []
    { in_raster := true, number := 5, format := 5, line := [], page := [] } []).1 (by decide)

/-- C2 counterexample: the claim asserts that the stream
1B 2A 62 30 57 00 00 0C decodes successfully to a page with zero lines.
In fact 'W' is reached with `format` still at its initial value 0, and
the graphics-data branch checks the format before reading the block, so
the decode aborts with the unsupported-compression error reporting
format 0. -/
theorem C2_counterexample :
    read_page [27, 42, 98, 48, 87, 0, 0, 12] = .error (.unsupportedCompression 0) := by
  simp [read_page, read_page_loop.eq_def, raster_byte, raster_action, range_adjust]

/-- C2 amended: a graphics-data letter ('w'/'W') encountered with format
not equal to 1030 is a fatal unsupported-compression error reporting the
offending format code; in particular the stream 1B 2A 62 30 57 00 00 0C,
where format still has its initial value 0, fails that way rather than
producing an empty page. -/
theorem C2_amended (st : WState) (input : List Nat) (hf : st.format ≠ 1030) :
    raster_byte 119 st input = .error (.unsupportedCompression st.format) ∧
    raster_byte 87 st input = .error (.unsupportedCompression st.format) ∧
    read_page [27, 42, 98, 48, 87, 0, 0, 12] = .error (.unsupportedCompression 0) := by
  refine ⟨?_, ?_, ?_⟩
  · simp [raster_byte, raster_action, hf]
  · simp [raster_byte, raster_action, hf]
  · simp [read_page, read_page_loop.eq_def, raster_byte, raster_action, range_adjust]

theorem C2_amended_witness :
    raster_byte 119 { in_raster := true, number := 0, format := 0, line := [], page := [] }
      [] = .error (.unsupportedCompression 0) :=
  (C2_amended { in_raster := true, number := 0, format := 0, line := [], page := [] } []
    (by decide)).1

/-- C3 counterexample: the claim asserts that the caller loop stops only
at end-of-stream.  On the input 0C 0C the first `read_page` consumes one
form feed and reports an empty page, so the loop stops at once with the
second form feed still unread: an empty page ends page processing
mid-stream. -/
theorem C3_counterexample : drive [12, 12] = .ok ([], [12]) := by
  have hrp : read_page [12, 12] = .ok ([], [12]) := by
    simp [read_page, read_page_loop.eq_def]
  rw [drive.eq_def]
  split
  · rename_i e heq
    rw [hrp] at heq
    exact absurd heq (by simp)
  · rename_i pg rest heq
    rw [hrp] at heq
    simp only [Except.ok.injEq, Prod.mk.injEq] at heq
    obtain ⟨h1, h2⟩ := heq
    subst h1
    subst h2
    simp

/-- C3 amended: `read_page` returns the scan lines accumulated up to the
next form feed (or up to end-of-stream), and it reports an empty page
whenever a form feed arrives with no lines accumulated, which can happen
mid-stream; the caller loop stops at the first empty page, so page
processing can end before end-of-stream.  On the empty stream it reports
the empty page. -/
theorem C3_amended (l : List Nat) :
    read_page [] = .ok ([], []) ∧
    read_page (12 :: l) = .ok ([], l) ∧
    drive (12 :: l) = .ok ([], l) := by
  have h12 : read_page (12 :: l) = .ok ([], l) := by
    simp [read_page, read_page_loop.eq_def]
  refine ⟨?_, h12, ?_⟩
  · simp [read_page, read_page_loop.eq_def]
  · rw [drive.eq_def]
    split
    · rename_i e heq
      rw [h12] at heq
      exact absurd heq (by simp)
    · rename_i pg rest heq
      rw [h12] at heq
      simp only [Except.ok.injEq, Prod.mk.injEq] at heq
      obtain ⟨h1, h2⟩ := heq
      subst h1
      subst h2
      simp

theorem getD_out {l : List Nat} {i : Nat} (h : l.length ≤ i) : l.getD i 0 = 0 := by
  rw [List.getD_eq_getElem?_getD, List.getElem?_eq_none h]
  rfl

theorem resizeTo_length {l : List Nat} {e : Nat} (h : l.length ≤ e) :
    (resizeTo l e).length = e := by
  simp [resizeTo]
  omega

theorem resizeTo_getD (l : List Nat) (e i : Nat) :
    (resizeTo l e).getD i 0 = l.getD i 0 := by
  by_cases h : i < l.length
  · rw [resizeTo, List.getD_eq_getElem?_getD, List.getElem?_append, if_pos h,
      ← List.getD_eq_getElem?_getD]
  · rw [resizeTo, List.getD_eq_getElem?_getD, List.getElem?_append, if_neg h,
      List.getElem?_replicate, getD_out (le_of_not_lt h)]
    split <;> simp

theorem fill_n_length {l : List Nat} {pos count data : Nat}
    (h : pos + count ≤ l.length) : (fill_n l pos count data).length = l.length := by
  simp [fill_n]
  omega

theorem write_at_length {l : List Nat} {pos : Nat} {bs : List Nat}
    (h : pos + bs.length ≤ l.length) : (write_at l pos bs).length = l.length := by
  simp [write_at]
  omega

theorem fill_n_getD_outside {l : List Nat} {pos count data i : Nat}
    (hlen : pos + count ≤ l.length) (hout : i < pos ∨ pos + count ≤ i) :
    (fill_n l pos count data).getD i 0 = l.getD i 0 := by
  rcases hout with hi | hi
  · rw [fill_n, List.getD_eq_getElem?_getD, List.getElem?_append,
      if_pos (show i < (l.take pos ++ List.replicate count data).length by simp; omega),
      List.getElem?_append,
      if_pos (show i < (l.take pos).length by simp; omega),
      List.getElem?_take, if_pos hi, ← List.getD_eq_getElem?_getD]
  · rw [fill_n, List.getD_eq_getElem?_getD, List.getElem?_append,
      if_neg (show ¬ i < (l.take pos ++ List.replicate count data).length by simp; omega),
      List.getElem?_drop]
    have harith : pos + count + (i - (l.take pos ++ List.replicate count data).length) = i := by
      simp
      omega
    rw [harith, ← List.getD_eq_getElem?_getD]

theorem write_at_getD_outside {l : List Nat} {pos i : Nat} {bs : List Nat}
    (hlen : pos + bs.length ≤ l.length) (hout : i < pos ∨ pos + bs.length ≤ i) :
    (write_at l pos bs).getD i 0 = l.getD i 0 := by
  rcases hout with hi | hi
  · rw [write_at, List.getD_eq_getElem?_getD, List.getElem?_append,
      if_pos (show i < (l.take pos ++ bs).length by simp; omega),
      List.getElem?_append,
      if_pos (show i < (l.take pos).length by simp; omega),
      List.getElem?_take, if_pos hi, ← List.getD_eq_getElem?_getD]
  · rw [write_at, List.getD_eq_getElem?_getD, List.getElem?_append,
      if_neg (show ¬ i < (l.take pos ++ bs).length by simp; omega),
      List.getElem?_drop]
    have harith : pos + bs.length + (i - (l.take pos ++ bs).length) = i := by
      simp
      omega
    rw [harith, ← List.getD_eq_getElem?_getD]

theorem read_repeat_spec {cmd : Nat} {st : EditSt} {s : BSrc} {st1 : EditSt} {s1 : BSrc}
    (h : read_repeat cmd st s = .ok (st1, s1)) :
    ∃ w, st.line_offset ≤ w ∧ w ≤ st1.line_offset ∧
      (st1.line.length = st.line.length ∨
        (st1.line.length = st1.line_offset ∧ st1.line_offset ≤ MAX_LINE_SIZE)) ∧
      ∀ i, i < w ∨ st1.line_offset ≤ i → st1.line.getD i 0 = st.line.getD i 0 := by
  cases hoff : grow_field ((cmd >>> 5) &&& 3) 3 s with
  | error e => simp [read_repeat, hoff] at h
  | ok p =>
    obtain ⟨offset, sa⟩ := p
    cases hcnt : grow_field (cmd &&& 31) 31 sa with
    | error e => simp [read_repeat, hoff, hcnt] at h
    | ok q =>
      obtain ⟨cnt1, sb⟩ := q
      cases hdata : bnext sb with
      | error e => simp [read_repeat, hoff, hcnt, hdata] at h
      | ok r =>
        obtain ⟨data, sc⟩ := r
        simp only [read_repeat, hoff, hcnt, hdata] at h
        split at h
        · split at h
          · simp at h
          · rename_i hgt hle
            simp only [Except.ok.injEq, Prod.mk.injEq] at h
            obtain ⟨h1, h2⟩ := h
            subst h1
            simp only [gt_iff_lt, not_lt] at hgt hle
            have hrl : (resizeTo st.line (st.line_offset + offset + (cnt1 + 2) % 65536)).length
                = st.line_offset + offset + (cnt1 + 2) % 65536 :=
              resizeTo_length (by omega)
            refine ⟨st.line_offset + offset, by omega, by simp, ?_, ?_⟩
            · right
              constructor
              · simp only
                rw [fill_n_length (by omega)]
                exact hrl
              · simpa [MAX_LINE_SIZE] using hle
            · intro i hi
              simp only at hi ⊢
              rw [fill_n_getD_outside (by omega) (by omega), resizeTo_getD]
        · rename_i hng
          simp only [Except.ok.injEq, Prod.mk.injEq] at h
          obtain ⟨h1, h2⟩ := h
          subst h1
          simp only [gt_iff_lt, not_lt] at hng
          refine ⟨st.line_offset + offset, by omega, by simp, ?_, ?_⟩
          · left
            simp only
            exact fill_n_length (by omega)
          · intro i hi
            simp only at hi ⊢
            exact fill_n_getD_outside (by omega) (by omega)

theorem read_substitute_spec {cmd : Nat} {st : EditSt} {s : BSrc} {st1 : EditSt} {s1 : BSrc}
    (h : read_substitute cmd st s = .ok (st1, s1)) :
    ∃ w, st.line_offset ≤ w ∧ w ≤ st1.line_offset ∧
      (st1.line.length = st.line.length ∨
        (st1.line.length = st1.line_offset ∧ st1.line_offset ≤ MAX_LINE_SIZE)) ∧
      ∀ i, i < w ∨ st1.line_offset ≤ i → st1.line.getD i 0 = st.line.getD i 0 := by
  cases hoff : grow_field ((cmd >>> 3) &&& 15) 15 s with
  | error e => simp [read_substitute, hoff] at h
  | ok p =>
    obtain ⟨offset, sa⟩ := p
    cases hcnt : grow_field (cmd &&& 7) 7 sa with
    | error e => simp [read_substitute, hoff, hcnt] at h
    | ok q =>
      obtain ⟨cnt1, sb⟩ := q
      cases hbs : read_bytes ((cnt1 + 1) % 65536) sb with
      | error e =>
        simp only [read_substitute, hoff, hcnt, hbs] at h
        split at h
        · split at h
          · simp at h
          · simp at h
        · simp at h
      | ok r =>
        obtain ⟨bs, sc⟩ := r
        have hbl : bs.length = (cnt1 + 1) % 65536 := read_bytes_length _ sb bs sc hbs
        simp only [read_substitute, hoff, hcnt, hbs] at h
        split at h
        · split at h
          · simp at h
          · rename_i hgt hle
            simp only [Except.ok.injEq, Prod.mk.injEq] at h
            obtain ⟨h1, h2⟩ := h
            subst h1
            simp only [gt_iff_lt, not_lt] at hgt hle
            have hrl : (resizeTo st.line (st.line_offset + offset + (cnt1 + 1) % 65536)).length
                = st.line_offset + offset + (cnt1 + 1) % 65536 :=
              resizeTo_length (by omega)
            refine ⟨st.line_offset + offset, by omega, by simp, ?_, ?_⟩
            · right
              constructor
              · simp only
                rw [write_at_length (by omega)]
                exact hrl
              · simpa [MAX_LINE_SIZE] using hle
            · intro i hi
              simp only at hi ⊢
              rw [write_at_getD_outside (by omega) (by omega), resizeTo_getD]
        · rename_i hng
          simp only [Except.ok.injEq, Prod.mk.injEq] at h
          obtain ⟨h1, h2⟩ := h
          subst h1
          simp only [gt_iff_lt, not_lt] at hng
          refine ⟨st.line_offset + offset, by omega, by simp, ?_, ?_⟩
          · left
            simp only
            exact write_at_length (by omega)
          · intro i hi
            simp only at hi ⊢
            exact write_at_getD_outside (by omega) (by omega)

theorem read_edit_spec {st : EditSt} {s : BSrc} {st1 : EditSt} {s1 : BSrc}
    (h : read_edit st s = .ok (st1, s1)) :
    ∃ w, st.line_offset ≤ w ∧ w ≤ st1.line_offset ∧
      (st1.line.length = st.line.length ∨
        (st1.line.length = st1.line_offset ∧ st1.line_offset ≤ MAX_LINE_SIZE)) ∧
      ∀ i, i < w ∨ st1.line_offset ≤ i → st1.line.getD i 0 = st.line.getD i 0 := by
  cases hb : bnext s with
  | error e => simp [read_edit, hb] at h
  | ok p =>
    obtain ⟨cmd, s2⟩ := p
    by_cases hcmd : 128 ≤ cmd
    · simp only [read_edit, hb, if_pos hcmd] at h
      exact read_repeat_spec h
    · simp only [read_edit, hb, if_neg hcmd] at h
      exact read_substitute_spec h

/-- Predicate: `i` lies outside every half-open window `[r.1, r.2)` of the list. -/
def OutsideAll (rs : List (Nat × Nat)) (i : Nat) : Prop :=
  ∀ r ∈ rs, i < r.1 ∨ r.2 ≤ i

theorem apply_edits_spec :
    ∀ (k : Nat) (st : EditSt) (s : BSrc) (st1 : EditSt) (s1 : BSrc),
      apply_edits k st s = .ok (st1, s1) →
      st.line_offset ≤ st1.line_offset ∧
      (st.line.length ≤ MAX_LINE_SIZE → st1.line.length ≤ MAX_LINE_SIZE) ∧
      ∃ rs : List (Nat × Nat),
        ∀ i, OutsideAll rs i → st1.line.getD i 0 = st.line.getD i 0 := by
  intro k
  induction k with
  | zero =>
    intro st s st1 s1 h
    simp [apply_edits] at h
    obtain ⟨h1, h2⟩ := h
    subst h1
    exact ⟨le_refl _, fun hh => hh, [], fun i _ => rfl⟩
  | succ k ih =>
    intro st s st1 s1 h
    cases he : read_edit st s with
    | error e => simp [apply_edits, he] at h
    | ok p =>
      obtain ⟨st2, s2⟩ := p
      simp only [apply_edits, he] at h
      obtain ⟨hmono, hlen, rs, hpres⟩ := ih st2 s2 st1 s1 h
      obtain ⟨w, hw1, hw2, hlen2, hpres2⟩ := read_edit_spec he
      refine ⟨by omega, ?_, (w, st2.line_offset) :: rs, ?_⟩
      · intro hb
        apply hlen
        rcases hlen2 with h1 | h1
        · omega
        · omega
      · intro i hi
        have hi1 : i < w ∨ st2.line_offset ≤ i := hi (w, st2.line_offset) (by simp)
        have hi2 : OutsideAll rs i := fun r hr => hi r (by simp [hr])
        rw [hpres i hi2, hpres2 i hi1]

/-- C5: for every edit, with end = cursor + offset + count: when end
exceeds the buffer length the buffer is extended to exactly end octets
(appended octets zero) unless end also exceeds MAX_LINE_SIZE = 2000, in
which case the decode fails with line-overflow; consequently every edit
and every successful line decode keeps the buffer length at most 2000. -/
theorem C5_buffer_growth :
    (∀ cmd st s st1 s1, st.line.length ≤ MAX_LINE_SIZE →
      read_repeat cmd st s = .ok (st1, s1) → st1.line.length ≤ MAX_LINE_SIZE) ∧
    (∀ cmd st s st1 s1, st.line.length ≤ MAX_LINE_SIZE →
      read_substitute cmd st s = .ok (st1, s1) → st1.line.length ≤ MAX_LINE_SIZE) ∧
    (∀ line page s line1 page1 s1, line.length ≤ MAX_LINE_SIZE →
      read_line line page s = .ok (line1, page1, s1) → line1.length ≤ MAX_LINE_SIZE) ∧
    (∀ l e, l.length ≤ e → (resizeTo l e).length = e ∧
      ∀ i, l.length ≤ i → (resizeTo l e).getD i 0 = 0) ∧
    (∀ cmd st n d rest, st.line.length ≤ MAX_LINE_SIZE →
      (cmd >>> 5) &&& 3 ≠ 3 → cmd &&& 31 ≠ 31 →
      MAX_LINE_SIZE < st.line_offset + ((cmd >>> 5) &&& 3) + ((cmd &&& 31) + 2) →
      read_repeat cmd st (n + 1, d :: rest) = .error .lineOverflow) := by
  have hMAX : MAX_LINE_SIZE = 2000 := rfl
  refine ⟨?_, ?_, ?_, ?_, ?_⟩
  · intro cmd st s st1 s1 hlen h
    obtain ⟨w, h1, h2, h3, h4⟩ := read_repeat_spec h
    rcases h3 with h3 | h3 <;> omega
  · intro cmd st s st1 s1 hlen h
    obtain ⟨w, h1, h2, h3, h4⟩ := read_substitute_spec h
    rcases h3 with h3 | h3 <;> omega
  · intro line page s line1 page1 s1 hlen h
    cases hb : bnext s with
    | error e => simp [read_line, hb] at h
    | ok p =>
      obtain ⟨ne, s2⟩ := p
      by_cases hne : ne = 255
      · simp only [read_line, hb, if_pos hne] at h
        simp at h
        obtain ⟨h1, h2, h3⟩ := h
        subst h1
        simp [hMAX]
      · simp only [read_line, hb, if_neg hne] at h
        cases ha : apply_edits ne { line_offset := 0, line := line } s2 with
        | error e => rw [ha] at h; simp at h
        | ok q =>
          obtain ⟨st2, s3⟩ := q
          rw [ha] at h
          simp only [Except.ok.injEq, Prod.mk.injEq] at h
          obtain ⟨h1, h2, h3⟩ := h
          subst h1
          exact (apply_edits_spec ne _ s2 st2 s3 ha).2.1 hlen
  · intro l e hle
    refine ⟨resizeTo_length hle, ?_⟩
    intro i hi
    rw [resizeTo_getD, getD_out hi]
  · intro cmd st n d rest hlen hoffne hcntne hbig
    have hc31 : cmd &&& 31 < 31 := lt_of_le_of_ne Nat.and_le_right hcntne
    have hmod : ((cmd &&& 31) + 2) % 65536 = (cmd &&& 31) + 2 := Nat.mod_eq_of_lt (by omega)
    simp only [read_repeat, grow_field, if_neg hoffne, if_neg hcntne, bnext, hmod]
    rw [if_pos (by omega), if_pos (by omega)]

theorem C5_buffer_growth_witness :
    read_repeat 0 { line_offset := 1999, line := [] } (1, [7]) = .error .lineOverflow :=
  C5_buffer_growth.2.2.2.2 0 { line_offset := 1999, line := [] } 0 7 []
    (by decide) (by decide) (by decide) (by decide)

/-- Window bookkeeping for one edit: re-reads the command byte and the
same `grow_field` fields as `read_edit` (plus the repeat data byte or the
substitute literal bytes, to stay in step with the stream) and returns
the half-open window [cursor + offset, cursor + offset + count) the edit
writes.  The windows are therefore a function of the byte stream and the
cursor alone. -/
def edit_window (lo : Nat) (s : BSrc) : Except DecErr ((Nat × Nat) × BSrc) :=
  match bnext s with
  | .error e => .error e
  | .ok (cmd, s1) =>
    if 128 ≤ cmd then
      match grow_field ((cmd >>> 5) &&& 3) 3 s1 with
      | .error e => .error e
      | .ok (offset, s2) =>
        match grow_field (cmd &&& 31) 31 s2 with
        | .error e => .error e
        | .ok (cnt1, s3) =>
          match bnext s3 with
          | .error e => .error e
          | .ok (_, s4) =>
            .ok ((lo + offset, lo + offset + (cnt1 + 2) % 65536), s4)
    else
      match grow_field ((cmd >>> 3) &&& 15) 15 s1 with
      | .error e => .error e
      | .ok (offset, s2) =>
        match grow_field (cmd &&& 7) 7 s2 with
        | .error e => .error e
        | .ok (cnt1, s3) =>
          match read_bytes ((cnt1 + 1) % 65536) s3 with
          | .error e => .error e
          | .ok (_, s4) =>
            .ok ((lo + offset, lo + offset + (cnt1 + 1) % 65536), s4)

/-- The written windows of the k edits of one line, threaded through the
cursor: each edit's window ends where the next edit's cursor starts. -/
def line_windows : Nat → Nat → BSrc → Except DecErr (List (Nat × Nat) × BSrc)
  | 0, _, s => .ok ([], s)
  | k + 1, lo, s =>
    match edit_window lo s with
    | .error e => .error e
    | .ok ((w, c), s1) =>
      match line_windows k c s1 with
      | .error e => .error e
      | .ok (ws, s2) => .ok ((w, c) :: ws, s2)

theorem read_repeat_window {cmd : Nat} {st : EditSt} {s : BSrc} {st1 : EditSt} {s1 : BSrc}
    (h : read_repeat cmd st s = .ok (st1, s1)) :
    ∃ offset cnt1 data sa sb,
      grow_field ((cmd >>> 5) &&& 3) 3 s = .ok (offset, sa) ∧
      grow_field (cmd &&& 31) 31 sa = .ok (cnt1, sb) ∧
      bnext sb = .ok (data, s1) ∧
      st1.line_offset = st.line_offset + offset + (cnt1 + 2) % 65536 ∧
      ∀ i, i < st.line_offset + offset ∨ st1.line_offset ≤ i →
        st1.line.getD i 0 = st.line.getD i 0 := by
  cases hoff : grow_field ((cmd >>> 5) &&& 3) 3 s with
  | error e => simp [read_repeat, hoff] at h
  | ok p =>
    obtain ⟨offset, sa⟩ := p
    cases hcnt : grow_field (cmd &&& 31) 31 sa with
    | error e => simp [read_repeat, hoff, hcnt] at h
    | ok q =>
      obtain ⟨cnt1, sb⟩ := q
      cases hdata : bnext sb with
      | error e => simp [read_repeat, hoff, hcnt, hdata] at h
      | ok r =>
        obtain ⟨data, sc⟩ := r
        simp only [read_repeat, hoff, hcnt, hdata] at h
        split at h
        · split at h
          · simp at h
          · rename_i hgt hle
            simp only [Except.ok.injEq, Prod.mk.injEq] at h
            obtain ⟨h1, h2⟩ := h
            subst h1
            subst h2
            simp only [gt_iff_lt, not_lt] at hgt hle
            refine ⟨offset, cnt1, data, sa, sb, rfl, hcnt, hdata, rfl, ?_⟩
            intro i hi
            simp only at hi ⊢
            have hrl := @resizeTo_length st.line
              (st.line_offset + offset + (cnt1 + 2) % 65536) (by omega)
            rw [fill_n_getD_outside (by omega) (by omega), resizeTo_getD]
        · rename_i hng
          simp only [Except.ok.injEq, Prod.mk.injEq] at h
          obtain ⟨h1, h2⟩ := h
          subst h1
          subst h2
          simp only [gt_iff_lt, not_lt] at hng
          refine ⟨offset, cnt1, data, sa, sb, rfl, hcnt, hdata, rfl, ?_⟩
          intro i hi
          simp only at hi ⊢
          exact fill_n_getD_outside (by omega) (by omega)

theorem read_substitute_window {cmd : Nat} {st : EditSt} {s : BSrc} {st1 : EditSt} {s1 : BSrc}
    (h : read_substitute cmd st s = .ok (st1, s1)) :
    ∃ offset cnt1 bs sa sb,
      grow_field ((cmd >>> 3) &&& 15) 15 s = .ok (offset, sa) ∧
      grow_field (cmd &&& 7) 7 sa = .ok (cnt1, sb) ∧
      read_bytes ((cnt1 + 1) % 65536) sb = .ok (bs, s1) ∧
      st1.line_offset = st.line_offset + offset + (cnt1 + 1) % 65536 ∧
      ∀ i, i < st.line_offset + offset ∨ st1.line_offset ≤ i →
        st1.line.getD i 0 = st.line.getD i 0 := by
  cases hoff : grow_field ((cmd >>> 3) &&& 15) 15 s with
  | error e => simp [read_substitute, hoff] at h
  | ok p =>
    obtain ⟨offset, sa⟩ := p
    cases hcnt : grow_field (cmd &&& 7) 7 sa with
    | error e => simp [read_substitute, hoff, hcnt] at h
    | ok q =>
      obtain ⟨cnt1, sb⟩ := q
      cases hbs : read_bytes ((cnt1 + 1) % 65536) sb with
      | error e =>
        simp only [read_substitute, hoff, hcnt, hbs] at h
        split at h
        · split at h
          · simp at h
          · simp at h
        · simp at h
      | ok r =>
        obtain ⟨bs, sc⟩ := r
        have hbl : bs.length = (cnt1 + 1) % 65536 := read_bytes_length _ sb bs sc hbs
        simp only [read_substitute, hoff, hcnt, hbs] at h
        split at h
        · split at h
          · simp at h
          · rename_i hgt hle
            simp only [Except.ok.injEq, Prod.mk.injEq] at h
            obtain ⟨h1, h2⟩ := h
            subst h1
            subst h2
            simp only [gt_iff_lt, not_lt] at hgt hle
            refine ⟨offset, cnt1, bs, sa, sb, rfl, hcnt, hbs, rfl, ?_⟩
            intro i hi
            simp only at hi ⊢
            have hrl := @resizeTo_length st.line
              (st.line_offset + offset + (cnt1 + 1) % 65536) (by omega)
            rw [write_at_getD_outside (by omega) (by omega), resizeTo_getD]
        · rename_i hng
          simp only [Except.ok.injEq, Prod.mk.injEq] at h
          obtain ⟨h1, h2⟩ := h
          subst h1
          subst h2
          simp only [gt_iff_lt, not_lt] at hng
          refine ⟨offset, cnt1, bs, sa, sb, rfl, hcnt, hbs, rfl, ?_⟩
          intro i hi
          simp only at hi ⊢
          exact write_at_getD_outside (by omega) (by omega)

theorem read_edit_window {st : EditSt} {s : BSrc} {st1 : EditSt} {s1 : BSrc}
    (h : read_edit st s = .ok (st1, s1)) :
    ∃ w, edit_window st.line_offset s = .ok ((w, st1.line_offset), s1) ∧
      st.line_offset ≤ w ∧
      ∀ i, i < w ∨ st1.line_offset ≤ i → st1.line.getD i 0 = st.line.getD i 0 := by
  cases hb : bnext s with
  | error e => simp [read_edit, hb] at h
  | ok p =>
    obtain ⟨cmd, s2⟩ := p
    by_cases hcmd : 128 ≤ cmd
    · simp only [read_edit, hb, if_pos hcmd] at h
      obtain ⟨offset, cnt1, data, sa, sb, hoff, hcnt, hdata, hlo, hpres⟩ :=
        read_repeat_window h
      refine ⟨st.line_offset + offset, ?_, by omega, hpres⟩
      simp only [edit_window, hb, if_pos hcmd, hoff, hcnt, hdata, hlo]
    · simp only [read_edit, hb, if_neg hcmd] at h
      obtain ⟨offset, cnt1, bs, sa, sb, hoff, hcnt, hbs, hlo, hpres⟩ :=
        read_substitute_window h
      refine ⟨st.line_offset + offset, ?_, by omega, hpres⟩
      simp only [edit_window, hb, if_neg hcmd, hoff, hcnt, hbs, hlo]

theorem apply_edits_windows :
    ∀ (k : Nat) (st : EditSt) (s : BSrc) (st1 : EditSt) (s1 : BSrc),
      apply_edits k st s = .ok (st1, s1) →
      ∃ ws, line_windows k st.line_offset s = .ok (ws, s1) ∧
        ∀ i, OutsideAll ws i → st1.line.getD i 0 = st.line.getD i 0 := by
  intro k
  induction k with
  | zero =>
    intro st s st1 s1 h
    simp [apply_edits] at h
    obtain ⟨h1, h2⟩ := h
    subst h1
    subst h2
    exact ⟨[], by simp [line_windows], fun i _ => rfl⟩
  | succ k ih =>
    intro st s st1 s1 h
    cases he : read_edit st s with
    | error e => simp [apply_edits, he] at h
    | ok p =>
      obtain ⟨st2, s2⟩ := p
      simp only [apply_edits, he] at h
      obtain ⟨w, hwin, hw1, hpres1⟩ := read_edit_window he
      obtain ⟨ws, hws, hpres⟩ := ih st2 s2 st1 s1 h
      refine ⟨(w, st2.line_offset) :: ws, ?_, ?_⟩
      · simp only [line_windows, hwin, hws]
      · intro i hi
        have hi1 : i < w ∨ st2.line_offset ≤ i := hi (w, st2.line_offset) (by simp)
        have hi2 : OutsideAll ws i := fun r hr => hi r (by simp [hr])
        rw [hpres i hi2, hpres1 i hi1]

/-- C6: for a line decoded with a num_edits byte other than 255, the
written windows of its edits are the ones `line_windows` computes from
the same byte stream (each edit writes exactly [cursor + offset,
cursor + offset + count), overflow extensions included), and every byte
position outside all of those windows carries over bit-identically from
the previous line, with positions past its old length zero (`getD i 0`
captures both, the buffer growing only by zero octets).  Moreover every
single repeat or substitute edit — overflow-extended or not — preserves
every position outside [cursor + offset, cursor + offset + count),
where offset and count are the field values actually decoded by
`grow_field` on that stream. -/
theorem C6_carryover :
    (∀ line page n e rest line1 page1 s1, e ≠ 255 →
      read_line line page (n + 1, e :: rest) = .ok (line1, page1, s1) →
      ∃ ws, line_windows e 0 (n, rest) = .ok (ws, s1) ∧
        ∀ i, OutsideAll ws i → line1.getD i 0 = line.getD i 0) ∧
    (∀ cmd st s st1 s1, read_repeat cmd st s = .ok (st1, s1) →
      ∃ offset cnt1 data sa sb,
        grow_field ((cmd >>> 5) &&& 3) 3 s = .ok (offset, sa) ∧
        grow_field (cmd &&& 31) 31 sa = .ok (cnt1, sb) ∧
        bnext sb = .ok (data, s1) ∧
        st1.line_offset = st.line_offset + offset + (cnt1 + 2) % 65536 ∧
        ∀ i, i < st.line_offset + offset ∨ st1.line_offset ≤ i →
          st1.line.getD i 0 = st.line.getD i 0) ∧
    (∀ cmd st s st1 s1, read_substitute cmd st s = .ok (st1, s1) →
      ∃ offset cnt1 bs sa sb,
        grow_field ((cmd >>> 3) &&& 15) 15 s = .ok (offset, sa) ∧
        grow_field (cmd &&& 7) 7 sa = .ok (cnt1, sb) ∧
        read_bytes ((cnt1 + 1) % 65536) sb = .ok (bs, s1) ∧
        st1.line_offset = st.line_offset + offset + (cnt1 + 1) % 65536 ∧
        ∀ i, i < st.line_offset + offset ∨ st1.line_offset ≤ i →
          st1.line.getD i 0 = st.line.getD i 0) := by
  refine ⟨?_, fun cmd st s st1 s1 h => read_repeat_window h,
    fun cmd st s st1 s1 h => read_substitute_window h⟩
  intro line page n e rest line1 page1 s1 he h
  simp only [read_line, bnext] at h
  rw [if_neg he] at h
  cases ha : apply_edits e { line_offset := 0, line := line } (n, rest) with
  | error e2 => rw [ha] at h; simp at h
  | ok q =>
    obtain ⟨st2, s2⟩ := q
    rw [ha] at h
    simp only [Except.ok.injEq, Prod.mk.injEq] at h
    obtain ⟨h1, h2, h3⟩ := h
    subst h1
    subst h3
    obtain ⟨ws, hws, hpres⟩ := apply_edits_windows e _ _ _ _ ha
    exact ⟨ws, hws, hpres⟩

theorem C6_carryover_witness :
    ∃ ws, line_windows 1 0 (2, [32, 187]) = .ok (ws, ((0, []) : BSrc)) ∧
      ∀ i, OutsideAll ws i →
        ([0, 0, 170, 170, 187] : List Nat).getD i 0 =
          ([0, 0, 170, 170] : List Nat).getD i 0 :=
  C6_carryover.1 [0, 0, 170, 170] [] 2 1 [32, 187] [0, 0, 170, 170, 187]
    [[0, 0, 170, 170, 187]] (0, []) (by decide) (by decide)
